import Mathlib

/-!
Verification of the televerknet Telnet parser and Q-method negotiator.

The parser model follows `src/lib.rs` (the six-state variant): `State`,
`Action`, entry/exit actions, `get_action`, `perform_state_change` and
`perform_action`. The fixed arrays `intermediates[..intermediate_idx]` and
`subs[..sub_idx]` are modelled by the lists of their filled prefixes, which
are the only observable parts; capacity checks on the cursors become length
checks on the lists. Sink callbacks are modelled as an emitted event list.

The negotiator model follows `rabscuttle_telnet/src/q.rs`: the four
256-slot tables become functions from option bytes to states, updated
pointwise; `Perform::send` becomes an emitted command list and
`Perform::want_enabled` an explicit boolean policy argument.
-/

namespace Televerknet

/-- Buffer capacities from `src/lib.rs`. -/
def MAX_INTERMEDIATES : ℕ := 1024

def MAX_SUBS : ℕ := 8

/-- Parser states, from `enum State` in `src/lib.rs`. -/
inductive State where
  | Ground
  | Data
  | IacEntry
  | NegEntry
  | SubEntry
  | SubIntermediate
deriving DecidableEq, Repr

/-- Parser actions, from `enum Action` in `src/lib.rs`. -/
inductive Action where
  | None
  | Clear
  | Collect
  | Execute
  | DataDispatch
  | IacDispatch
  | NegStart
  | NegDispatch
  | SubStart
  | SubPut
  | SubDispatch
  | Ignore
deriving DecidableEq, Repr

/-- `State::entry_action` from `src/lib.rs`. -/
def State.entryAction : State → Action
  | .Ground => .None
  | .Data => .DataDispatch
  | .IacEntry => .DataDispatch
  | .NegEntry => .None
  | .SubEntry => .SubStart
  | .SubIntermediate => .None

/-- `State::exit_action` from `src/lib.rs`. -/
def State.exitAction : State → Action
  | .Ground => .None
  | .Data => .Clear
  | .IacEntry => .Clear
  | .NegEntry => .None
  | .SubEntry => .None
  | .SubIntermediate => .None

/-- Sink callbacks of the `Perform` trait that the parser can invoke,
recorded as events in emission order. -/
inductive Event where
  | data (bytes : List ℕ) (ignoring : Bool)
  | execute (b : ℕ)
  | iac (b : ℕ)
  | negotiate (cmd opt : ℕ)
  | sub (payload : List ℕ)
deriving DecidableEq, Repr

/-- Whether an event is a `data` callback. -/
def Event.isData : Event → Bool
  | .data _ _ => true
  | _ => false

/-- The `Parser` struct from `src/lib.rs`. `intermediates` and `subs`
hold the filled prefixes `intermediates[..intermediate_idx]` and
`subs[..sub_idx]`; the cursors are their lengths. -/
structure Parser where
  state : State
  intermediates : List ℕ
  negCommand : ℕ
  subs : List ℕ
  ignoring : Bool
deriving DecidableEq, Repr

/-- `Parser::new` from `src/lib.rs`. -/
def Parser.new : Parser :=
  { state := .Ground
    intermediates := []
    negCommand := 0
    subs := []
    ignoring := false }

/-- `Parser::get_action` from `src/lib.rs`: classify one byte in the
current state, yielding the next state and the transition action. The
byte ranges mirror the Rust `match` arms on `u8`. -/
def Parser.getAction (s : State) (byte : ℕ) : State × Action :=
  match s with
  | .Ground | .Data =>
      if byte ≤ 0x1f then (.Data, .Execute)
      else if byte ≤ 0x7f then (.Ground, .Collect)
      else if byte ≤ 0xfe then (.Data, .Execute)
      else (.IacEntry, .None)
  | .IacEntry =>
      if byte = 0xfa then (.SubEntry, .None)
      else if 0xfb ≤ byte ∧ byte ≤ 0xfe then (.NegEntry, .NegStart)
      else (.Ground, .IacDispatch)
  | .NegEntry => (.Ground, .NegDispatch)
  | .SubEntry | .SubIntermediate =>
      if byte = 0xf0 then (.Ground, .SubDispatch)
      else (.SubIntermediate, .SubPut)

/-- `Parser::perform_action` from `src/lib.rs`: apply one action, returning
the updated parser and the sink events it emitted (zero or one). -/
def Parser.performAction (p : Parser) (a : Action) (byte : ℕ) :
    Parser × List Event :=
  match a with
  | .Execute => (p, [.execute byte])
  | .Collect =>
      if p.intermediates.length = MAX_INTERMEDIATES then
        ({ p with ignoring := true }, [])
      else
        ({ p with intermediates := p.intermediates ++ [byte] }, [])
  | .DataDispatch =>
      if 0 < p.intermediates.length then
        (p, [.data p.intermediates p.ignoring])
      else (p, [])
  | .Ignore | .None => (p, [])
  | .Clear => ({ p with intermediates := [], ignoring := false }, [])
  | .IacDispatch => (p, [.iac byte])
  | .NegStart => ({ p with negCommand := byte }, [])
  | .NegDispatch => (p, [.negotiate p.negCommand byte])
  | .SubStart => ({ p with subs := [] }, [])
  | .SubPut =>
      if p.subs.length < MAX_SUBS then
        ({ p with subs := p.subs ++ [byte] }, [])
      else (p, [])
  | .SubDispatch =>
      if 0 < p.subs.length then (p, [.sub p.subs]) else (p, [])

/-- `Parser::perform_state_change` from `src/lib.rs`: run the exit action
of the old state, the transition action, the entry action of the new
state, then assume the new state. (`maybe_action!` skips `Action::None`,
which performs nothing anyway, so running it unconditionally is
semantically identical.) -/
def Parser.performStateChange (p : Parser) (state : State) (action : Action)
    (byte : ℕ) : Parser × List Event :=
  let ex := p.performAction p.state.exitAction 0
  let tr := ex.1.performAction action byte
  let en := tr.1.performAction state.entryAction 0
  ({ en.1 with state := state }, ex.2 ++ tr.2 ++ en.2)

/-- `Parser::advance` from `src/lib.rs`. -/
def Parser.advance (p : Parser) (byte : ℕ) : Parser × List Event :=
  let sa := Parser.getAction p.state byte
  p.performStateChange sa.1 sa.2 byte

/-- Feed a byte sequence one byte at a time, concatenating the emitted
events across calls. -/
def Parser.feed (p : Parser) : List ℕ → Parser × List Event
  | [] => (p, [])
  | b :: rest =>
      let st := p.advance b
      let re := st.1.feed rest
      (re.1, st.2 ++ re.2)

/-- Feed a byte sequence, keeping the events grouped per `advance` call. -/
def Parser.feedCalls (p : Parser) : List ℕ → Parser × List (List Event)
  | [] => (p, [])
  | b :: rest =>
      let st := p.advance b
      let re := st.1.feedCalls rest
      (re.1, st.2 :: re.2)

example :
    (Parser.feed Parser.new [0x72, 0x73, 0x0d, 0x0a]).2 =
      [Event.execute 0x0d, Event.data [0x72, 0x73] false, Event.execute 0x0a] := by
  decide

example :
    (Parser.feed Parser.new [0xff, 0xfa, 0x18, 0x01, 0xff, 0xf0]).2 =
      [Event.sub [0x18, 0x01, 0xff]] := by decide

example :
    (Parser.feed Parser.new [0xff, 0xfb, 0x18]).2 =
      [Event.negotiate 0xfb 0x18] := by decide

example : (Parser.feed Parser.new [0xff, 0xf6]).2 = [Event.iac 0xf6] := by
  decide

/-! ## Q-method negotiator, from `rabscuttle_telnet/src/q.rs` -/

/-- `Command` from `command.rs`: an opaque wrapper over a byte value. -/
structure Command where
  val : ℕ
deriving DecidableEq, Repr

/-- The named command constants from `command.rs` used by the negotiator. -/
def Command.IAC : Command := ⟨255⟩

def Command.DONT : Command := ⟨254⟩

def Command.DO : Command := ⟨253⟩

def Command.WONT : Command := ⟨252⟩

def Command.WILL : Command := ⟨251⟩

/-- `OptionState` from `q.rs`. -/
inductive OptionState where
  | No
  | WantNo
  | WantYes
  | Yes
deriving DecidableEq, Repr

/-- `QueueBit` from `q.rs`. -/
inductive QueueBit where
  | Empty
  | Opposite
deriving DecidableEq, Repr

/-- `NegotiatorError` from `q.rs`. -/
inductive NegotiatorError where
  | AlreadyEnabled
  | AlreadyQueued
  | AlreadyDisabled
  | AlreadyNegotiating
  | DontAnsweredByWill
  | WontAnsweredByDo
  | UnknownCommand
deriving DecidableEq, Repr

/-- Pointwise update of a 256-slot table modelled as a function. -/
def setAt {α : Type} (f : ℕ → α) (i : ℕ) (v : α) : ℕ → α :=
  fun j => if j = i then v else f j

/-- The `Negotiator` struct from `q.rs`: the four 256-slot tables as
functions from the option byte. -/
structure Negotiator where
  local_ : ℕ → OptionState
  localq : ℕ → QueueBit
  remote : ℕ → OptionState
  remoteq : ℕ → QueueBit

/-- `Negotiator::new` from `q.rs`: every slot is `(No, Empty)`. -/
def Negotiator.new : Negotiator :=
  { local_ := fun _ => .No
    localq := fun _ => .Empty
    remote := fun _ => .No
    remoteq := fun _ => .Empty }

/-- Result of one negotiator operation: the updated negotiator, the
commands passed to `Perform::send` in order, and the returned error. -/
structure NegResult where
  neg : Negotiator
  sends : List (Command × ℕ)
  err : Option NegotiatorError

/-- `Negotiator::recv_will` from `q.rs`. `we` is the `Perform`'s
`want_enabled` policy. -/
def Negotiator.recvWill (n : Negotiator) (we : ℕ → Bool) (option : ℕ) :
    NegResult :=
  match n.remote option, n.remoteq option with
  | .No, _ =>
      if we option then
        { neg := { n with remote := setAt n.remote option .Yes }
          sends := [(Command.DO, option)], err := none }
      else
        { neg := n, sends := [(Command.DONT, option)], err := none }
  | .Yes, _ => { neg := n, sends := [], err := none }
  | .WantNo, .Empty =>
      { neg := { n with remote := setAt n.remote option .No }
        sends := [], err := some .DontAnsweredByWill }
  | .WantNo, .Opposite =>
      { neg := { n with remote := setAt n.remote option .Yes,
                        remoteq := setAt n.remoteq option .Empty }
        sends := [], err := some .DontAnsweredByWill }
  | .WantYes, .Empty =>
      { neg := { n with remote := setAt n.remote option .Yes }
        sends := [], err := none }
  | .WantYes, .Opposite =>
      { neg := { n with remote := setAt n.remote option .WantNo,
                        remoteq := setAt n.remoteq option .Empty }
        sends := [(Command.DONT, option)], err := none }

/-- `Negotiator::recv_wont` from `q.rs`. -/
def Negotiator.recvWont (n : Negotiator) (option : ℕ) : NegResult :=
  match n.remote option, n.remoteq option with
  | .No, _ => { neg := n, sends := [], err := none }
  | .Yes, _ =>
      { neg := { n with remote := setAt n.remote option .No }
        sends := [(Command.DONT, option)], err := none }
  | .WantNo, .Empty =>
      { neg := { n with remote := setAt n.remote option .No }
        sends := [], err := none }
  | .WantNo, .Opposite =>
      { neg := { n with remote := setAt n.remote option .WantYes,
                        remoteq := setAt n.remoteq option .Empty }
        sends := [(Command.DO, option)], err := none }
  | .WantYes, .Empty =>
      { neg := { n with remote := setAt n.remote option .No }
        sends := [], err := none }
  | .WantYes, .Opposite =>
      { neg := { n with remote := setAt n.remote option .No,
                        remoteq := setAt n.remoteq option .Empty }
        sends := [], err := none }

/-- `Negotiator::recv_do` from `q.rs`. -/
def Negotiator.recvDo (n : Negotiator) (we : ℕ → Bool) (option : ℕ) :
    NegResult :=
  match n.local_ option, n.localq option with
  | .No, _ =>
      if we option then
        { neg := { n with local_ := setAt n.local_ option .Yes }
          sends := [(Command.WILL, option)], err := none }
      else
        { neg := n, sends := [(Command.WONT, option)], err := none }
  | .Yes, _ => { neg := n, sends := [], err := none }
  | .WantNo, .Empty =>
      { neg := { n with local_ := setAt n.local_ option .No }
        sends := [], err := some .WontAnsweredByDo }
  | .WantNo, .Opposite =>
      { neg := { n with local_ := setAt n.local_ option .Yes,
                        localq := setAt n.localq option .Empty }
        sends := [], err := some .WontAnsweredByDo }
  | .WantYes, .Empty =>
      { neg := { n with local_ := setAt n.local_ option .Yes }
        sends := [], err := none }
  | .WantYes, .Opposite =>
      { neg := { n with local_ := setAt n.local_ option .WantNo,
                        localq := setAt n.localq option .Empty }
        sends := [(Command.WONT, option)], err := none }

/-- `Negotiator::recv_dont` from `q.rs`. -/
def Negotiator.recvDont (n : Negotiator) (option : ℕ) : NegResult :=
  match n.local_ option, n.localq option with
  | .No, _ => { neg := n, sends := [], err := none }
  | .Yes, _ =>
      { neg := { n with local_ := setAt n.local_ option .No }
        sends := [(Command.WONT, option)], err := none }
  | .WantNo, .Empty =>
      { neg := { n with local_ := setAt n.local_ option .No }
        sends := [], err := none }
  | .WantNo, .Opposite =>
      { neg := { n with local_ := setAt n.local_ option .WantYes,
                        localq := setAt n.localq option .Empty }
        sends := [(Command.WILL, option)], err := none }
  | .WantYes, .Empty =>
      { neg := { n with local_ := setAt n.local_ option .No }
        sends := [], err := none }
  | .WantYes, .Opposite =>
      { neg := { n with local_ := setAt n.local_ option .No,
                        localq := setAt n.localq option .Empty }
        sends := [], err := none }

/-- `Negotiator::recv` from `q.rs`: dispatch on the command. -/
def Negotiator.recv (n : Negotiator) (we : ℕ → Bool) (command : Command)
    (option : ℕ) : NegResult :=
  if command = Command.WILL then n.recvWill we option
  else if command = Command.WONT then n.recvWont option
  else if command = Command.DO then n.recvDo we option
  else if command = Command.DONT then n.recvDont option
  else { neg := n, sends := [], err := some .UnknownCommand }

/-- `Negotiator::enable` from `q.rs`. -/
def Negotiator.enable (n : Negotiator) (option : ℕ) : NegResult :=
  match n.remote option, n.remoteq option with
  | .No, _ =>
      { neg := { n with remote := setAt n.remote option .WantYes }
        sends := [(Command.DO, option)], err := none }
  | .Yes, _ => { neg := n, sends := [], err := some .AlreadyEnabled }
  | .WantNo, .Empty =>
      { neg := { n with remoteq := setAt n.remoteq option .Opposite }
        sends := [], err := none }
  | .WantNo, .Opposite => { neg := n, sends := [], err := some .AlreadyQueued }
  | .WantYes, .Empty =>
      { neg := n, sends := [], err := some .AlreadyNegotiating }
  | .WantYes, .Opposite =>
      { neg := { n with remoteq := setAt n.remoteq option .Empty }
        sends := [], err := none }

/-- `Negotiator::disable` from `q.rs`. -/
def Negotiator.disable (n : Negotiator) (option : ℕ) : NegResult :=
  match n.remote option, n.remoteq option with
  | .No, _ => { neg := n, sends := [], err := some .AlreadyDisabled }
  | .Yes, _ =>
      { neg := { n with remote := setAt n.remote option .WantNo }
        sends := [(Command.DONT, option)], err := none }
  | .WantNo, .Empty =>
      { neg := n, sends := [], err := some .AlreadyNegotiating }
  | .WantNo, .Opposite =>
      { neg := { n with remoteq := setAt n.remoteq option .Empty }
        sends := [], err := none }
  | .WantYes, .Empty =>
      { neg := { n with remoteq := setAt n.remoteq option .Opposite }
        sends := [], err := none }
  | .WantYes, .Opposite => { neg := n, sends := [], err := some .AlreadyQueued }

/-! ## Auxiliary definitions for the claims -/

/-- Modelled from the spec: the RFC 1143 table for reception of WILL on the
remote side, exactly as the spec's rows state it — new state, new queue
bit, commands to send, and the reported error, as a function of the
`want_enabled` answer and the current (state, queue) pair. -/
def rfc1143WillSpec (want : Bool) (s : OptionState) (q : QueueBit) :
    OptionState × QueueBit × List Command × Option NegotiatorError :=
  match s, q with
  | .No, q => if want then (.Yes, q, [Command.DO], none)
              else (.No, q, [Command.DONT], none)
  | .Yes, q => (.Yes, q, [], none)
  | .WantNo, .Empty => (.No, .Empty, [], some .DontAnsweredByWill)
  | .WantNo, .Opposite => (.Yes, .Empty, [], some .DontAnsweredByWill)
  | .WantYes, .Empty => (.Yes, .Empty, [], none)
  | .WantYes, .Opposite => (.WantNo, .Empty, [Command.DONT], none)

/-- Bytes carried by a `data` event. -/
def Event.dataBytes : Event → List ℕ
  | .data bs _ => bs
  | _ => []

/-- Bytes carried by an `execute` event. -/
def Event.execBytes : Event → List ℕ
  | .execute b => [b]
  | _ => []

/-- Concatenation, in emission order, of the payloads of all `data` and
`execute` events of a trace. -/
def eventBytes (evs : List Event) : List ℕ :=
  (evs.map fun e => e.dataBytes ++ e.execBytes).flatten

/-- Data-and-execute payload bytes of one `advance` call's events, with the
data payload ordered before the execute payload of that same call. -/
def callBytes (evs : List Event) : List ℕ :=
  (evs.map Event.dataBytes).flatten ++ (evs.map Event.execBytes).flatten

/-- Payload bytes of a per-call grouped trace, call by call. -/
def outBytes (groups : List (List Event)) : List ℕ :=
  (groups.map callBytes).flatten

/-- The still-pending (not yet delivered) portion of the data buffer: the
buffer in `Ground` holds the run being collected, while in every other
state its contents have already been dispatched or cleared. -/
def pendingTail (p : Parser) : List ℕ :=
  if p.state = State.Ground then p.intermediates else []

/-- The input contains no IAC byte (and is a byte stream). -/
abbrev noIac (l : List ℕ) : Prop := ∀ b ∈ l, b < 0xff

/-- Every maximal run of printable bytes, the current one having already
`k` bytes, stays within the data-buffer capacity. -/
def runsOK : List ℕ → ℕ → Bool
  | [], _ => true
  | b :: rest, k =>
      if 0x20 ≤ b ∧ b ≤ 0x7f then
        decide (k + 1 ≤ MAX_INTERMEDIATES) && runsOK rest (k + 1)
      else runsOK rest 0

/-- Parser states reachable from `Parser::new` by feeding bytes. -/
inductive Parser.Reach : Parser → Prop where
  | init : Parser.Reach Parser.new
  | step (p : Parser) (b : ℕ) : Parser.Reach p → b ≤ 0xff →
      Parser.Reach (p.advance b).1

/-- Buffer-cursor bounds of the parser. -/
def Parser.SizeInv (p : Parser) : Prop :=
  p.intermediates.length ≤ MAX_INTERMEDIATES ∧ p.subs.length ≤ MAX_SUBS

/-- In `NegEntry` the latched command is one of WILL/WONT/DO/DONT. -/
def Parser.NegInv (p : Parser) : Prop :=
  p.state = State.NegEntry → 0xfb ≤ p.negCommand ∧ p.negCommand ≤ 0xfe

/-- Negotiator states reachable from `Negotiator::new` by any sequence of
`recv`, `enable` and `disable` calls, under any `want_enabled` policy. -/
inductive Negotiator.Reach : Negotiator → Prop where
  | init : Negotiator.Reach Negotiator.new
  | recv (n : Negotiator) (we : ℕ → Bool) (c : Command) (o : ℕ) :
      Negotiator.Reach n → Negotiator.Reach (n.recv we c o).neg
  | enable (n : Negotiator) (o : ℕ) :
      Negotiator.Reach n → Negotiator.Reach (n.enable o).neg
  | disable (n : Negotiator) (o : ℕ) :
      Negotiator.Reach n → Negotiator.Reach (n.disable o).neg

/-- The Q-method invariant: the queue bit is `Empty` whenever the option
state is `No` or `Yes`, on both sides. -/
def Negotiator.QInv (n : Negotiator) : Prop :=
  ∀ o : ℕ,
    ((n.remote o = OptionState.No ∨ n.remote o = OptionState.Yes) →
      n.remoteq o = QueueBit.Empty) ∧
    ((n.local_ o = OptionState.No ∨ n.local_ o = OptionState.Yes) →
      n.localq o = QueueBit.Empty)

/-! ## Helper lemmas -/

theorem feed_append (l1 l2 : List ℕ) (p : Parser) :
    p.feed (l1 ++ l2) =
      (((p.feed l1).1.feed l2).1, (p.feed l1).2 ++ ((p.feed l1).1.feed l2).2) := by
  induction l1 generalizing p with
  | nil => simp [Parser.feed]
  | cons b rest ih => simp [Parser.feed, ih, List.append_assoc]

theorem advance_ground_printable (p : Parser) (b : ℕ) (hs : p.state = .Ground)
    (h1 : 0x20 ≤ b) (h2 : b ≤ 0x7f) (hlen : p.intermediates.length ≠ MAX_INTERMEDIATES) :
    p.advance b =
      ({ p with
          state := State.Ground
          intermediates := p.intermediates ++ [b] }, []) := by
  simp [Parser.advance, Parser.getAction, Parser.performStateChange,
    Parser.performAction, State.entryAction, State.exitAction, hs, hlen,
    Nat.not_le.2 (by omega : 0x1f < b), h2]

theorem advance_data_printable (p : Parser) (b : ℕ) (hs : p.state = .Data)
    (h1 : 0x20 ≤ b) (h2 : b ≤ 0x7f) :
    p.advance b =
      ({ p with
          state := State.Ground
          intermediates := [b]
          ignoring := false }, []) := by
  simp [Parser.advance, Parser.getAction, Parser.performStateChange,
    Parser.performAction, State.entryAction, State.exitAction, hs,
    Nat.not_le.2 (by omega : 0x1f < b), h2, MAX_INTERMEDIATES]

theorem advance_ground_exec (p : Parser) (b : ℕ) (hs : p.state = .Ground)
    (hb : b ≤ 0x1f ∨ (0x80 ≤ b ∧ b ≤ 0xfe)) :
    p.advance b = ({ p with state := .Data },
      [.execute b] ++
        if 0 < p.intermediates.length then [.data p.intermediates p.ignoring]
        else []) := by
  rcases hb with hb | hb
  · simp [Parser.advance, Parser.getAction, Parser.performStateChange,
      Parser.performAction, State.entryAction, State.exitAction, hs, hb]
    split <;> simp
  · simp [Parser.advance, Parser.getAction, Parser.performStateChange,
      Parser.performAction, State.entryAction, State.exitAction, hs,
      Nat.not_le.2 (by omega : 0x1f < b), Nat.not_le.2 (by omega : 0x7f < b),
      hb.2]
    split <;> simp

theorem advance_data_exec (p : Parser) (b : ℕ) (hs : p.state = .Data)
    (hb : b ≤ 0x1f ∨ (0x80 ≤ b ∧ b ≤ 0xfe)) :
    p.advance b =
      ({ p with
          state := State.Data
          intermediates := []
          ignoring := false }, [.execute b]) := by
  rcases hb with hb | hb
  · simp [Parser.advance, Parser.getAction, Parser.performStateChange,
      Parser.performAction, State.entryAction, State.exitAction, hs, hb]
  · simp [Parser.advance, Parser.getAction, Parser.performStateChange,
      Parser.performAction, State.entryAction, State.exitAction, hs,
      Nat.not_le.2 (by omega : 0x1f < b), Nat.not_le.2 (by omega : 0x7f < b),
      hb.2]

theorem advance_sub_put (p : Parser) (b : ℕ)
    (hs : p.state = .SubEntry ∨ p.state = .SubIntermediate) (hb : b ≠ 0xf0)
    (hlen : p.subs.length < MAX_SUBS) :
    p.advance b =
      ({ p with
          state := State.SubIntermediate
          subs := p.subs ++ [b] }, []) := by
  rcases hs with hs | hs <;>
    simp [Parser.advance, Parser.getAction, Parser.performStateChange,
      Parser.performAction, State.entryAction, State.exitAction, hs, hb, hlen]

theorem advance_sub_end (p : Parser)
    (hs : p.state = .SubEntry ∨ p.state = .SubIntermediate)
    (hsubs : 0 < p.subs.length) :
    p.advance 0xf0 = ({ p with state := .Ground }, [.sub p.subs]) := by
  rcases hs with hs | hs <;>
    simp [Parser.advance, Parser.getAction, Parser.performStateChange,
      Parser.performAction, State.entryAction, State.exitAction, hs, hsubs]

theorem filter_split {l1 l2 : List Event}
    (h1 : (l1.all fun e => !e.isData) = true ∨ (l1.all Event.isData) = true)
    (h2 : l2.all Event.isData = true) :
    l1 ++ l2 =
      ((l1 ++ l2).filter fun e => !e.isData) ++
        ((l1 ++ l2).filter fun e => e.isData) := by
  simp only [List.all_eq_true] at h2
  rcases h1 with h1 | h1
  · simp only [List.all_eq_true] at h1
    rw [List.filter_append, List.filter_append,
      List.filter_eq_self.2 h1,
      List.filter_eq_nil_iff.2 (fun e he => by simpa using h2 e he),
      List.filter_eq_nil_iff.2 (fun e he => by simpa using h1 e he),
      List.filter_eq_self.2 h2]
    simp
  · simp only [List.all_eq_true] at h1
    rw [List.filter_append, List.filter_append,
      List.filter_eq_nil_iff.2 (fun e he => by simpa using h1 e he),
      List.filter_eq_nil_iff.2 (fun e he => by simpa using h2 e he),
      List.filter_eq_self.2 h1,
      List.filter_eq_self.2 h2]
    simp

theorem exitAction_no_events (q : Parser) :
    (q.performAction q.state.exitAction 0).2 = [] := by
  cases h : q.state <;> simp [Parser.performAction, State.exitAction, h]

theorem entryAction_all_data (q : Parser) (s' : State) :
    (q.performAction s'.entryAction 0).2.all Event.isData = true := by
  cases s' <;> simp only [Parser.performAction, State.entryAction] <;>
    (try split_ifs) <;> simp [Event.isData]

theorem transAction_uniform (q : Parser) (a : Action) (b : ℕ) :
    ((q.performAction a b).2.all fun e => !e.isData) = true ∨
      ((q.performAction a b).2.all Event.isData) = true := by
  cases a
  case DataDispatch =>
    refine Or.inr ?_
    simp only [Parser.performAction]
    split_ifs <;> simp [Event.isData]
  all_goals
    refine Or.inl ?_
    simp only [Parser.performAction]
    (try split_ifs) <;> simp [Event.isData]

theorem psc_data_events_last (p : Parser) (s' : State) (a : Action) (b : ℕ) :
    (p.performStateChange s' a b).2 =
      ((p.performStateChange s' a b).2.filter fun e => !e.isData) ++
        ((p.performStateChange s' a b).2.filter fun e => e.isData) := by
  simp only [Parser.performStateChange, exitAction_no_events,
    List.nil_append]
  exact filter_split (transAction_uniform _ a b) (entryAction_all_data _ s')

theorem advance_data_events_last (p : Parser) (b : ℕ) :
    (p.advance b).2 =
      ((p.advance b).2.filter fun e => !e.isData) ++
        ((p.advance b).2.filter fun e => e.isData) := by
  simp only [Parser.advance]
  exact psc_data_events_last p _ _ b

theorem feed_cons (p : Parser) (b : ℕ) (rest : List ℕ) :
    p.feed (b :: rest) =
      (((p.advance b).1.feed rest).1,
        (p.advance b).2 ++ ((p.advance b).1.feed rest).2) := rfl

theorem feedCalls_cons (p : Parser) (b : ℕ) (rest : List ℕ) :
    p.feedCalls (b :: rest) =
      (((p.advance b).1.feedCalls rest).1,
        (p.advance b).2 :: ((p.advance b).1.feedCalls rest).2) := rfl

theorem feedCalls_roundtrip (input : List ℕ) (p : Parser)
    (hst : p.state = State.Ground ∨ p.state = State.Data)
    (hig : p.state = State.Ground → p.ignoring = false)
    (hno : noIac input)
    (hruns : runsOK input
      (if p.state = State.Ground then p.intermediates.length else 0) = true) :
    outBytes (p.feedCalls input).2 ++ pendingTail (p.feedCalls input).1 =
      pendingTail p ++ input := by
  induction input generalizing p with
  | nil => simp [Parser.feedCalls, outBytes]
  | cons b rest ih =>
      have hb : b < 0xff := hno b (List.mem_cons_self b rest)
      have hno' : noIac rest := fun x hx => hno x (List.mem_cons_of_mem b hx)
      simp only [runsOK] at hruns
      by_cases hpr : 0x20 ≤ b ∧ b ≤ 0x7f
      · -- printable byte: collected, no events
        rw [if_pos hpr, Bool.and_eq_true, decide_eq_true_eq] at hruns
        rcases hst with hst | hst
        · rw [if_pos hst] at hruns
          have hlen : p.intermediates.length ≠ MAX_INTERMEDIATES := by
            have := hruns.1; unfold MAX_INTERMEDIATES at *; omega
          have heq := advance_ground_printable p b hst hpr.1 hpr.2 hlen
          have ihx := ih { p with state := State.Ground, intermediates := p.intermediates ++ [b] }
            (Or.inl rfl) (fun _ => hig hst) hno' (by simpa using hruns.2)
          rw [feedCalls_cons, heq]
          simp only [outBytes, List.map_cons, List.flatten_cons] at ihx ⊢
          simpa [callBytes, pendingTail, hst] using ihx
        · rw [if_neg (by rw [hst]; decide)] at hruns
          have heq := advance_data_printable p b hst hpr.1 hpr.2
          have ihx := ih { p with state := State.Ground, intermediates := [b], ignoring := false }
            (Or.inl rfl) (fun _ => rfl) hno' (by simpa using hruns.2)
          rw [feedCalls_cons, heq]
          simp only [outBytes, List.map_cons, List.flatten_cons] at ihx ⊢
          simpa [callBytes, pendingTail, hst] using ihx
      · -- non-printable, non-IAC byte: executed
        rw [if_neg hpr] at hruns
        have hexec : b ≤ 0x1f ∨ (0x80 ≤ b ∧ b ≤ 0xfe) := by omega
        rcases hst with hst | hst
        · have heq := advance_ground_exec p b hst hexec
          have ihx := ih { p with state := State.Data }
            (Or.inr rfl) (fun h => by simp at h) hno'
            (by simpa using hruns)
          rw [feedCalls_cons, heq]
          simp only [outBytes, List.map_cons, List.flatten_cons] at ihx ⊢
          by_cases hnil : 0 < p.intermediates.length
          · rw [if_pos hnil]
            simpa [callBytes, Event.dataBytes, Event.execBytes,
              pendingTail, hst] using ihx
          · have hz : p.intermediates = [] :=
              List.length_eq_zero.1 (by omega)
            rw [if_neg hnil]
            simpa [callBytes, Event.dataBytes, Event.execBytes,
              pendingTail, hst, hz] using ihx
        · have heq := advance_data_exec p b hst hexec
          have ihx := ih { p with state := State.Data, intermediates := [], ignoring := false }
            (Or.inr rfl) (fun h => by simp at h) hno'
            (by simpa using hruns)
          rw [feedCalls_cons, heq]
          simp only [outBytes, List.map_cons, List.flatten_cons] at ihx ⊢
          simpa [callBytes, Event.dataBytes, Event.execBytes,
            pendingTail, hst] using ihx

theorem feed_sub_run (bs : List ℕ) (p : Parser)
    (hs : p.state = State.SubEntry ∨ p.state = State.SubIntermediate)
    (hbs : ∀ x ∈ bs, x ≠ 0xf0)
    (hlen : p.subs.length + bs.length + 1 ≤ MAX_SUBS) :
    (p.feed (bs ++ [0xff, 0xf0])).2 = [Event.sub (p.subs ++ bs ++ [0xff])] ∧
      (p.feed (bs ++ [0xff, 0xf0])).1.state = State.Ground := by
  induction bs generalizing p with
  | nil =>
      have hput := advance_sub_put p 0xff hs (by decide)
        (by unfold MAX_SUBS at *; simp at hlen ⊢; omega)
      have hend := advance_sub_end { p with state := State.SubIntermediate, subs := p.subs ++ [0xff] }
        (Or.inr rfl) (by simp)
      simp only [List.nil_append, feed_cons, hput, hend, Parser.feed]
      simp
  | cons x xs ih =>
      have hx : x ≠ 0xf0 := hbs x (List.mem_cons_self x xs)
      have hput := advance_sub_put p x hs hx
        (by unfold MAX_SUBS at *; simp at hlen; omega)
      have ihx := ih { p with state := State.SubIntermediate, subs := p.subs ++ [x] }
        (Or.inr rfl) (fun y hy => hbs y (List.mem_cons_of_mem x hy))
        (by simp at hlen ⊢; omega)
      simp only [List.cons_append, feed_cons, hput]
      simpa using ihx

theorem performAction_sizeInv (p : Parser) (a : Action) (b : ℕ)
    (h : p.SizeInv) : (p.performAction a b).1.SizeInv := by
  rcases h with ⟨h1, h2⟩
  cases a <;> simp only [Parser.performAction] <;> (try split_ifs) <;>
    constructor <;> simp_all [MAX_INTERMEDIATES, MAX_SUBS] <;> omega

theorem advance_sizeInv (p : Parser) (b : ℕ) (h : p.SizeInv) :
    (p.advance b).1.SizeInv := by
  have h3 := performAction_sizeInv _ (Parser.getAction p.state b).2 b
    (performAction_sizeInv p p.state.exitAction 0 h)
  have h4 := performAction_sizeInv _
    (Parser.getAction p.state b).1.entryAction 0 h3
  simpa [Parser.advance, Parser.performStateChange, Parser.SizeInv] using h4

theorem reach_sizeInv (p : Parser) (h : p.Reach) : p.SizeInv := by
  induction h with
  | init => exact ⟨by simp [Parser.new], by simp [Parser.new]⟩
  | step q b _ _ ih => exact advance_sizeInv q b ih

theorem performAction_state (p : Parser) (a : Action) (b : ℕ) :
    (p.performAction a b).1.state = p.state := by
  cases a <;> simp only [Parser.performAction] <;> (try split_ifs) <;> simp

theorem performAction_negCommand (p : Parser) (a : Action) (b : ℕ)
    (h : a ≠ Action.NegStart) : (p.performAction a b).1.negCommand = p.negCommand := by
  cases a <;> simp only [Parser.performAction] <;> (try split_ifs) <;>
    simp_all

theorem exitAction_ne_negStart (s : State) : s.exitAction ≠ Action.NegStart := by
  cases s <;> simp [State.exitAction]

theorem entryAction_ne_negStart (s : State) : s.entryAction ≠ Action.NegStart := by
  cases s <;> simp [State.entryAction]

theorem advance_state (p : Parser) (b : ℕ) :
    (p.advance b).1.state = (Parser.getAction p.state b).1 := rfl

theorem advance_negCommand (p : Parser) (b : ℕ) :
    (p.advance b).1.negCommand =
      (if (Parser.getAction p.state b).2 = Action.NegStart then b
       else p.negCommand) := by
  simp only [Parser.advance, Parser.performStateChange]
  rw [performAction_negCommand _ _ _
    (entryAction_ne_negStart (Parser.getAction p.state b).1)]
  split_ifs with ha
  · rw [ha]; simp [Parser.performAction]
  · rw [performAction_negCommand _ _ _ ha,
      performAction_negCommand _ _ _ (exitAction_ne_negStart p.state)]

theorem getAction_negEntry (s : State) (b : ℕ)
    (h : (Parser.getAction s b).1 = State.NegEntry) :
    (Parser.getAction s b).2 = Action.NegStart ∧ 0xfb ≤ b ∧ b ≤ 0xfe := by
  cases s <;> simp only [Parser.getAction] at h ⊢ <;>
    (try split_ifs at h ⊢) <;> simp_all

theorem advance_negInv (p : Parser) (b : ℕ) :
    (p.advance b).1.NegInv := by
  intro hN
  rw [advance_state] at hN
  obtain ⟨ha, hb1, hb2⟩ := getAction_negEntry p.state b hN
  rw [advance_negCommand, if_pos ha]
  exact ⟨hb1, hb2⟩

theorem reach_negInv (p : Parser) (h : p.Reach) : p.NegInv := by
  induction h with
  | init => intro h; simp [Parser.new] at h
  | step q b _ _ _ => exact advance_negInv q b

theorem performAction_negotiate_mem (q : Parser) (a : Action) (b c o : ℕ)
    (h : Event.negotiate c o ∈ (q.performAction a b).2) :
    a = Action.NegDispatch ∧ c = q.negCommand ∧ o = b := by
  cases a <;> simp only [Parser.performAction] at h <;>
    (try split_ifs at h) <;> simp_all

theorem getAction_negDispatch (s : State) (b : ℕ)
    (h : (Parser.getAction s b).2 = Action.NegDispatch) :
    s = State.NegEntry := by
  cases s <;> simp only [Parser.getAction] at h ⊢ <;>
    (try split_ifs at h) <;> simp_all

theorem advance_neg_event (p : Parser) (b c o : ℕ)
    (h : Event.negotiate c o ∈ (p.advance b).2) :
    p.state = State.NegEntry ∧ c = p.negCommand := by
  simp only [Parser.advance, Parser.performStateChange,
    exitAction_no_events, List.nil_append, List.mem_append] at h
  rcases h with h | h
  · obtain ⟨ha, hc, _⟩ := performAction_negotiate_mem _ _ _ _ _ h
    refine ⟨getAction_negDispatch p.state b ha, ?_⟩
    rw [hc, performAction_negCommand _ _ _ (exitAction_ne_negStart p.state)]
  · exfalso
    have hall := entryAction_all_data
      ((p.performAction p.state.exitAction 0).1.performAction
        (Parser.getAction p.state b).2 b).1 (Parser.getAction p.state b).1
    rw [List.all_eq_true] at hall
    have := hall _ h
    simp [Event.isData] at this

theorem advance_state_cases (p : Parser) (b : ℕ) :
    (p.advance b).1.state = State.Ground ∨ (p.advance b).1.state = State.Data ∨
    (p.advance b).1.state = State.IacEntry ∨
    (p.advance b).1.state = State.NegEntry ∨
    (p.advance b).1.state = State.SubEntry ∨
    (p.advance b).1.state = State.SubIntermediate := by
  cases h : (p.advance b).1.state <;> simp

theorem setAt_same {α : Type} (f : ℕ → α) (i : ℕ) (v : α) :
    setAt f i v i = v := by simp [setAt]

theorem setAt_other {α : Type} (f : ℕ → α) (i : ℕ) (v : α) (j : ℕ)
    (h : j ≠ i) : setAt f i v j = f j := by simp [setAt, h]

theorem new_qinv : Negotiator.new.QInv :=
  fun _ => ⟨fun _ => rfl, fun _ => rfl⟩

theorem recvWill_qinv (n : Negotiator) (we : ℕ → Bool) (o : ℕ)
    (h : n.QInv) : (n.recvWill we o).neg.QInv := by
  intro o'
  have h1 := h o'
  have h2 := h o
  by_cases ho : o' = o
  · subst ho
    cases hw : we o' <;> cases hs : n.remote o' <;> cases hq : n.remoteq o' <;>
      simp_all [Negotiator.recvWill, setAt]
  · cases hw : we o <;> cases hs : n.remote o <;> cases hq : n.remoteq o <;>
      simp_all [Negotiator.recvWill, setAt]

theorem recvWont_qinv (n : Negotiator) (o : ℕ)
    (h : n.QInv) : (n.recvWont o).neg.QInv := by
  intro o'
  have h1 := h o'
  have h2 := h o
  by_cases ho : o' = o
  · subst ho
    cases hs : n.remote o' <;> cases hq : n.remoteq o' <;>
      simp_all [Negotiator.recvWont, setAt]
  · cases hs : n.remote o <;> cases hq : n.remoteq o <;>
      simp_all [Negotiator.recvWont, setAt]

theorem recvDo_qinv (n : Negotiator) (we : ℕ → Bool) (o : ℕ)
    (h : n.QInv) : (n.recvDo we o).neg.QInv := by
  intro o'
  have h1 := h o'
  have h2 := h o
  by_cases ho : o' = o
  · subst ho
    cases hw : we o' <;> cases hs : n.local_ o' <;> cases hq : n.localq o' <;>
      simp_all [Negotiator.recvDo, setAt]
  · cases hw : we o <;> cases hs : n.local_ o <;> cases hq : n.localq o <;>
      simp_all [Negotiator.recvDo, setAt]

theorem recvDont_qinv (n : Negotiator) (o : ℕ)
    (h : n.QInv) : (n.recvDont o).neg.QInv := by
  intro o'
  have h1 := h o'
  have h2 := h o
  by_cases ho : o' = o
  · subst ho
    cases hs : n.local_ o' <;> cases hq : n.localq o' <;>
      simp_all [Negotiator.recvDont, setAt]
  · cases hs : n.local_ o <;> cases hq : n.localq o <;>
      simp_all [Negotiator.recvDont, setAt]

theorem enable_qinv (n : Negotiator) (o : ℕ)
    (h : n.QInv) : (n.enable o).neg.QInv := by
  intro o'
  have h1 := h o'
  have h2 := h o
  by_cases ho : o' = o
  · subst ho
    cases hs : n.remote o' <;> cases hq : n.remoteq o' <;>
      simp_all [Negotiator.enable, setAt]
  · cases hs : n.remote o <;> cases hq : n.remoteq o <;>
      simp_all [Negotiator.enable, setAt]

theorem disable_qinv (n : Negotiator) (o : ℕ)
    (h : n.QInv) : (n.disable o).neg.QInv := by
  intro o'
  have h1 := h o'
  have h2 := h o
  by_cases ho : o' = o
  · subst ho
    cases hs : n.remote o' <;> cases hq : n.remoteq o' <;>
      simp_all [Negotiator.disable, setAt]
  · cases hs : n.remote o <;> cases hq : n.remoteq o <;>
      simp_all [Negotiator.disable, setAt]

theorem recv_qinv (n : Negotiator) (we : ℕ → Bool) (c : Command) (o : ℕ)
    (h : n.QInv) : (n.recv we c o).neg.QInv := by
  simp only [Negotiator.recv]
  split_ifs
  · exact recvWill_qinv n we o h
  · exact recvWont_qinv n o h
  · exact recvDo_qinv n we o h
  · exact recvDont_qinv n o h
  · exact h

theorem reach_qinv (n : Negotiator) (h : n.Reach) : n.QInv := by
  induction h with
  | init => exact new_qinv
  | recv m we c o _ ih => exact recv_qinv m we c o ih
  | enable m o _ ih => exact enable_qinv m o ih
  | disable m o _ ih => exact disable_qinv m o ih

/-! ## Claims -/

/-- Claim C1, counterexample: on input `[0x72, 0x73, 0x0D, 0x0A]` the event
sequence is not `data([0x72,0x73], false), execute(0x0D), execute(0x0A)`:
the execute of the run-terminating byte fires before the data flush. -/
theorem claim_C1_counterexample :
    (Parser.new.feed [0x72, 0x73, 0x0d, 0x0a]).2 ≠
      [Event.data [0x72, 0x73] false, Event.execute 0x0d,
        Event.execute 0x0a] := by decide

/-- Claim C1 (amended): within every single `advance` call the data flush
(entry action of the new state) comes after the non-data event of the
consumed byte, so a pending data run is delivered before any non-data
event caused by a strictly later byte; concretely,
`[0x72, 0x73, 0x0D, 0x0A]` produces exactly `execute(0x0D)`,
`data([0x72, 0x73], false)`, `execute(0x0A)`. -/
theorem claim_C1 :
    (Parser.new.feed [0x72, 0x73, 0x0d, 0x0a]).2 =
      [Event.execute 0x0d, Event.data [0x72, 0x73] false,
        Event.execute 0x0a] ∧
    ∀ (p : Parser) (b : ℕ),
      (p.advance b).2 =
        ((p.advance b).2.filter fun e => !e.isData) ++
          ((p.advance b).2.filter fun e => e.isData) :=
  ⟨by decide, advance_data_events_last⟩

/-- Claim C2, counterexample: for the IAC-free input `[0x72, 0x0D]` the
concatenation in emission order of the data and execute payloads is
`[0x0D, 0x72]`, not the input: the parser emits `execute(0x0D)` before
flushing `data([0x72])`, and a trailing printable run is not flushed at
all. -/
theorem claim_C2_counterexample :
    eventBytes (Parser.new.feed [0x72, 0x0d]).2 ≠ [0x72, 0x0d] := by decide

/-- Claim C2 (amended): for every IAC-free input whose maximal printable
runs fit the 1024-byte data buffer, concatenating per `advance` call the
data payload before the execute payload, and appending the still-pending
data buffer, recovers the input exactly. -/
theorem claim_C2 (input : List ℕ) (hno : noIac input)
    (hruns : runsOK input 0 = true) :
    outBytes (Parser.new.feedCalls input).2 ++
      pendingTail (Parser.new.feedCalls input).1 = input := by
  have h := feedCalls_roundtrip input Parser.new (Or.inl rfl)
    (fun _ => rfl) hno (by simpa [Parser.new] using hruns)
  simpa [pendingTail, Parser.new] using h

/-- Witness for C2 at the concrete input `[0x72, 0x73, 0x0D]`. -/
theorem claim_C2_witness :
    noIac [0x72, 0x73, 0x0d] ∧ runsOK [0x72, 0x73, 0x0d] 0 = true ∧
    outBytes (Parser.new.feedCalls [0x72, 0x73, 0x0d]).2 ++
      pendingTail (Parser.new.feedCalls [0x72, 0x73, 0x0d]).1 =
      [0x72, 0x73, 0x0d] :=
  ⟨by decide, by decide, claim_C2 [0x72, 0x73, 0x0d] (by decide) (by decide)⟩

/-- Claim C3 (confirmed): `Negotiator::recv` with command WILL follows the
RFC 1143 remote-side table exactly, for every option, every starting
(state, queue) pair and every `want_enabled` policy: the slot for the
option moves to the table's new (state, queue), exactly the table's
commands are sent for that option, the table's error is reported, and no
other slot changes. -/
theorem claim_C3 (n : Negotiator) (we : ℕ → Bool) (o : ℕ) :
    (n.recv we Command.WILL o).neg.remote o =
      (rfc1143WillSpec (we o) (n.remote o) (n.remoteq o)).1 ∧
    (n.recv we Command.WILL o).neg.remoteq o =
      (rfc1143WillSpec (we o) (n.remote o) (n.remoteq o)).2.1 ∧
    (n.recv we Command.WILL o).sends =
      (rfc1143WillSpec (we o) (n.remote o) (n.remoteq o)).2.2.1.map
        (fun c => (c, o)) ∧
    (n.recv we Command.WILL o).err =
      (rfc1143WillSpec (we o) (n.remote o) (n.remoteq o)).2.2.2 ∧
    (∀ o', o' ≠ o →
      (n.recv we Command.WILL o).neg.remote o' = n.remote o' ∧
      (n.recv we Command.WILL o).neg.remoteq o' = n.remoteq o') ∧
    (n.recv we Command.WILL o).neg.local_ = n.local_ ∧
    (n.recv we Command.WILL o).neg.localq = n.localq := by
  cases hw : we o <;> cases hs : n.remote o <;> cases hq : n.remoteq o <;>
    simp_all [Negotiator.recv, Negotiator.recvWill, rfc1143WillSpec, setAt]

/-- Witness for C3 at the initial negotiator, an accepting policy and
option 24. -/
theorem claim_C3_witness :
    (Negotiator.new.recv (fun _ => true) Command.WILL 24).neg.remote 24 =
      (rfc1143WillSpec true (Negotiator.new.remote 24)
        (Negotiator.new.remoteq 24)).1 ∧
    (Negotiator.new.recv (fun _ => true) Command.WILL 24).sends =
      (rfc1143WillSpec true (Negotiator.new.remote 24)
        (Negotiator.new.remoteq 24)).2.2.1.map (fun c => (c, 24)) :=
  ⟨(claim_C3 Negotiator.new (fun _ => true) 24).1,
   (claim_C3 Negotiator.new (fun _ => true) 24).2.2.1⟩

/-- Claim C4, counterexample: the subnegotiation payload delivered for
`IAC SB 0x18 0x01 IAC SE` is `[0x18, 0x01, 0xFF]`: it contains the option
byte `0x18` and the `0xFF` of the terminating `IAC SE`, contradicting the
claim that both are excluded. -/
theorem claim_C4_counterexample :
    (Parser.new.feed [0xff, 0xfa, 0x18, 0x01, 0xff, 0xf0]).2 =
      [Event.sub [0x18, 0x01, 0xff]] ∧
    0x18 ∈ ([0x18, 0x01, 0xff] : List ℕ) ∧
    0xff ∈ ([0x18, 0x01, 0xff] : List ℕ) := by decide

/-- Claim C4 (amended): for a subnegotiation `IAC SB opt b1 … bn IAC SE`
(no byte of `opt b1 … bn` equal to SE, and small enough for the 8-byte
sub buffer) the delivered payload excludes the leading `IAC SB` and the
final SE byte but includes the option byte and the `0xFF` of the
terminating `IAC SE`: it is exactly `opt b1 … bn 0xFF`. -/
theorem claim_C4 (opt : ℕ) (bs : List ℕ) (hopt : opt ≠ 0xf0)
    (hbs : ∀ x ∈ bs, x ≠ 0xf0) (hlen : bs.length ≤ 6) :
    (Parser.new.feed ([0xff, 0xfa, opt] ++ bs ++ [0xff, 0xf0])).2 =
      [Event.sub (opt :: (bs ++ [0xff]))] := by
  have hall : ∀ x ∈ opt :: bs, x ≠ 0xf0 := by
    intro x hx
    rcases List.mem_cons.1 hx with hx | hx
    · subst hx; exact hopt
    · exact hbs x hx
  have e4 := feed_sub_run (opt :: bs)
    { Parser.new with state := State.SubEntry } (Or.inl rfl) hall
    (by change ([] : List ℕ).length + (opt :: bs).length + 1 ≤ 8
        simp
        omega)
  have hlist : ([0xff, 0xfa, opt] ++ bs ++ [0xff, 0xf0] : List ℕ) =
      0xff :: 0xfa :: ((opt :: bs) ++ [0xff, 0xf0]) := by simp
  have key : Parser.new.feed (0xff :: 0xfa :: ((opt :: bs) ++ [0xff, 0xf0])) =
      ((({ Parser.new with state := State.SubEntry } : Parser).feed
          ((opt :: bs) ++ [0xff, 0xf0])).1,
        ([] : List Event) ++ ([] ++
          (({ Parser.new with state := State.SubEntry } : Parser).feed
            ((opt :: bs) ++ [0xff, 0xf0])).2)) := rfl
  rw [hlist, key]
  simp only [List.nil_append]
  rw [e4.1]
  simp [Parser.new]

/-- Witness for C4 at `opt = 0x20`, payload bytes `[0x21, 0x22]`. -/
theorem claim_C4_witness :
    (Parser.new.feed ([0xff, 0xfa, 0x20] ++ [0x21, 0x22] ++
        [0xff, 0xf0])).2 =
      [Event.sub (0x20 :: ([0x21, 0x22] ++ [0xff]))] :=
  claim_C4 0x20 [0x21, 0x22] (by decide) (by decide) (by decide)

/-- Claim C5, counterexample: in Ground, byte 0x7F is collected into the
data buffer with next state Ground — it is not executed and does not move
the parser to Data, contradicting the claimed 0x7F..0xFE execute range. -/
theorem claim_C5_counterexample :
    Parser.getAction State.Ground 0x7f = (State.Ground, Action.Collect) ∧
    (Parser.new.advance 0x7f).2 = [] ∧
    (Parser.new.advance 0x7f).1.state = State.Ground ∧
    (Parser.new.advance 0x7f).1.intermediates = [0x7f] := by decide

/-- Claim C5 (amended): in Ground and Data, every byte in 0x20..=0x7F is
collected (appended to the data buffer while below capacity) with next
state Ground, and every byte in 0x80..=0xFE is executed with next state
Data, flushing any pending run via the entry to Data. -/
theorem claim_C5 (p : Parser) (b : ℕ)
    (hs : p.state = State.Ground ∨ p.state = State.Data) :
    ((0x20 ≤ b ∧ b ≤ 0x7f) →
      Parser.getAction p.state b = (State.Ground, Action.Collect) ∧
      (p.intermediates.length ≠ MAX_INTERMEDIATES →
        (p.advance b).2 = [] ∧
        (p.advance b).1.intermediates =
          (if p.state = State.Ground then p.intermediates else []) ++ [b])) ∧
    ((0x80 ≤ b ∧ b ≤ 0xfe) →
      Parser.getAction p.state b = (State.Data, Action.Execute) ∧
      (p.advance b).1.state = State.Data ∧
      (p.advance b).2 = [Event.execute b] ++
        (if p.state = State.Ground ∧ 0 < p.intermediates.length then
          [Event.data p.intermediates p.ignoring] else [])) := by
  rcases hs with hs | hs
  · constructor
    · rintro ⟨h1, h2⟩
      have hga : Parser.getAction p.state b =
          (State.Ground, Action.Collect) := by
        rw [hs]
        simp only [Parser.getAction]
        rw [if_neg (by omega), if_pos (by omega)]
      refine ⟨hga, fun hlen => ?_⟩
      rw [advance_ground_printable p b hs h1 h2 hlen]
      simp [hs]
    · rintro ⟨h1, h2⟩
      have hga : Parser.getAction p.state b =
          (State.Data, Action.Execute) := by
        rw [hs]
        simp only [Parser.getAction]
        rw [if_neg (by omega), if_neg (by omega), if_pos (by omega)]
      refine ⟨hga, ?_, ?_⟩
      · rw [advance_ground_exec p b hs (Or.inr ⟨h1, h2⟩)]
      · rw [advance_ground_exec p b hs (Or.inr ⟨h1, h2⟩)]
        simp [hs]
  · constructor
    · rintro ⟨h1, h2⟩
      have hga : Parser.getAction p.state b =
          (State.Ground, Action.Collect) := by
        rw [hs]
        simp only [Parser.getAction]
        rw [if_neg (by omega), if_pos (by omega)]
      refine ⟨hga, fun _ => ?_⟩
      rw [advance_data_printable p b hs h1 h2]
      simp [hs]
    · rintro ⟨h1, h2⟩
      have hga : Parser.getAction p.state b =
          (State.Data, Action.Execute) := by
        rw [hs]
        simp only [Parser.getAction]
        rw [if_neg (by omega), if_neg (by omega), if_pos (by omega)]
      refine ⟨hga, ?_, ?_⟩
      · rw [advance_data_exec p b hs (Or.inr ⟨h1, h2⟩)]
      · rw [advance_data_exec p b hs (Or.inr ⟨h1, h2⟩)]
        simp [hs]

/-- Witness for C5: a printable byte is collected and a high byte is
executed, from the initial parser. -/
theorem claim_C5_witness :
    Parser.getAction Parser.new.state 0x41 =
      (State.Ground, Action.Collect) ∧
    Parser.getAction Parser.new.state 0x90 =
      (State.Data, Action.Execute) :=
  ⟨((claim_C5 Parser.new 0x41 (Or.inl rfl)).1 (by decide)).1,
   ((claim_C5 Parser.new 0x90 (Or.inl rfl)).2 (by decide)).1⟩

/-- Claim C6 (confirmed): from the initial negotiator, `enable(o)` then
`disable(o)` then `recv(WILL, o)` emits exactly DO then DONT for `o`, in
that order, and leaves the remote slot for `o` in `(WantNo, Empty)`. -/
theorem claim_C6 (we : ℕ → Bool) (o : ℕ) :
    (Negotiator.new.enable o).sends ++
      ((Negotiator.new.enable o).neg.disable o).sends ++
      (((Negotiator.new.enable o).neg.disable o).neg.recv we
        Command.WILL o).sends =
      [(Command.DO, o), (Command.DONT, o)] ∧
    (((Negotiator.new.enable o).neg.disable o).neg.recv we
        Command.WILL o).neg.remote o = OptionState.WantNo ∧
    (((Negotiator.new.enable o).neg.disable o).neg.recv we
        Command.WILL o).neg.remoteq o = QueueBit.Empty := by
  simp [Negotiator.new, Negotiator.enable, Negotiator.disable,
    Negotiator.recv, Negotiator.recvWill, setAt]

/-- Claim C7 (confirmed): in every negotiator state reachable from the
initial state by `recv`, `enable` and `disable` calls, for every option
and on both sides, the queue bit is Empty whenever the option state is No
or Yes. -/
theorem claim_C7 (n : Negotiator) (h : n.Reach) (o : ℕ) :
    ((n.remote o = OptionState.No ∨ n.remote o = OptionState.Yes) →
      n.remoteq o = QueueBit.Empty) ∧
    ((n.local_ o = OptionState.No ∨ n.local_ o = OptionState.Yes) →
      n.localq o = QueueBit.Empty) :=
  reach_qinv n h o

/-- Witness for C7 at the reachable state after `enable(24)`, option 24. -/
theorem claim_C7_witness :
    (((Negotiator.new.enable 24).neg.remote 24 = OptionState.No ∨
        (Negotiator.new.enable 24).neg.remote 24 = OptionState.Yes) →
      (Negotiator.new.enable 24).neg.remoteq 24 = QueueBit.Empty) ∧
    (((Negotiator.new.enable 24).neg.local_ 24 = OptionState.No ∨
        (Negotiator.new.enable 24).neg.local_ 24 = OptionState.Yes) →
      (Negotiator.new.enable 24).neg.localq 24 = QueueBit.Empty) :=
  claim_C7 (Negotiator.new.enable 24).neg
    (Negotiator.Reach.enable Negotiator.new 24 Negotiator.Reach.init) 24

/-- Claim C8, counterexample: after feeding `[0xFF, 0xFB]` (IAC WILL) the
parser is in `NegEntry`, which is none of the five states listed by the
claim. -/
theorem claim_C8_counterexample :
    (Parser.new.feed [0xff, 0xfb]).1.state = State.NegEntry ∧
    (Parser.new.feed [0xff, 0xfb]).1.state ≠ State.Ground ∧
    (Parser.new.feed [0xff, 0xfb]).1.state ≠ State.Data ∧
    (Parser.new.feed [0xff, 0xfb]).1.state ≠ State.IacEntry ∧
    (Parser.new.feed [0xff, 0xfb]).1.state ≠ State.SubEntry ∧
    (Parser.new.feed [0xff, 0xfb]).1.state ≠ State.SubIntermediate := by
  decide

/-- Claim C8 (amended): for every reachable parser state and every byte,
after `advance` the state is one of the six declared states (the five
listed plus NegEntry) and the buffer cursors satisfy
`intermediate_idx ≤ 1024` and `sub_idx ≤ 8`. -/
theorem claim_C8 (p : Parser) (b : ℕ) (h : p.Reach) :
    ((p.advance b).1.intermediates.length ≤ MAX_INTERMEDIATES ∧
      (p.advance b).1.subs.length ≤ MAX_SUBS) ∧
    ((p.advance b).1.state = State.Ground ∨
      (p.advance b).1.state = State.Data ∨
      (p.advance b).1.state = State.IacEntry ∨
      (p.advance b).1.state = State.NegEntry ∨
      (p.advance b).1.state = State.SubEntry ∨
      (p.advance b).1.state = State.SubIntermediate) :=
  ⟨advance_sizeInv p b (reach_sizeInv p h), advance_state_cases p b⟩

/-- Witness for C8 at the initial parser and byte 0x41. -/
theorem claim_C8_witness :
    (((Parser.new.advance 0x41).1.intermediates.length ≤
        MAX_INTERMEDIATES ∧
      (Parser.new.advance 0x41).1.subs.length ≤ MAX_SUBS) ∧
    ((Parser.new.advance 0x41).1.state = State.Ground ∨
      (Parser.new.advance 0x41).1.state = State.Data ∨
      (Parser.new.advance 0x41).1.state = State.IacEntry ∨
      (Parser.new.advance 0x41).1.state = State.NegEntry ∨
      (Parser.new.advance 0x41).1.state = State.SubEntry ∨
      (Parser.new.advance 0x41).1.state = State.SubIntermediate)) :=
  claim_C8 Parser.new 0x41 Parser.Reach.init

/-- Claim C9 (confirmed): 0xFF in SubEntry or SubIntermediate is an
ordinary sub-payload byte (`SubPut`, no IAC decoding), and the input
`[0xFF, 0xFA, 0x18, 0x01, 0xFF, 0xF0]` produces exactly the single event
`sub_dispatch([0x18, 0x01, 0xFF])`. -/
theorem claim_C9 :
    Parser.getAction State.SubEntry 0xff =
      (State.SubIntermediate, Action.SubPut) ∧
    Parser.getAction State.SubIntermediate 0xff =
      (State.SubIntermediate, Action.SubPut) ∧
    (Parser.new.feed [0xff, 0xfa, 0x18, 0x01, 0xff, 0xf0]).2 =
      [Event.sub [0x18, 0x01, 0xff]] := by decide

/-- Claim C10 (confirmed): whenever a reachable parser invokes
`negotiate_dispatch(cmd, opt)`, the command is one of 0xFB..0xFE
(WILL, WONT, DO, DONT): the latched `neg_command` can hold no other value
at dispatch time. -/
theorem claim_C10 (p : Parser) (b c o : ℕ) (h : p.Reach)
    (hmem : Event.negotiate c o ∈ (p.advance b).2) :
    0xfb ≤ c ∧ c ≤ 0xfe := by
  obtain ⟨hstate, hc⟩ := advance_neg_event p b c o hmem
  rw [hc]
  exact reach_negInv p h hstate

/-- Witness for C10: the reachable parser after `[0xFF, 0xFB]` dispatches
`negotiate(0xFB, 24)` on the next byte. -/
theorem claim_C10_witness :
    Event.negotiate 0xfb 24 ∈
      (((Parser.new.advance 0xff).1.advance 0xfb).1.advance 24).2 ∧
    (0xfb ≤ 0xfb ∧ 0xfb ≤ 0xfe) :=
  ⟨by decide,
   claim_C10 ((Parser.new.advance 0xff).1.advance 0xfb).1 24 0xfb 24
     (Parser.Reach.step (Parser.new.advance 0xff).1 0xfb
       (Parser.Reach.step Parser.new 0xff Parser.Reach.init (by decide))
       (by decide))
     (by decide)⟩

end Televerknet
